import Mathlib

/-!
Shallow embedding of the core of a two-venue prediction-market arbitrage MVP
(source files `types.rs`, `config.rs`, `execution.rs`, `position_tracker.rs`,
`kalshi.rs`, `polymarket.rs`).  Fixed-width machine integers are modelled as
`Nat`/`Int` with explicit wrapping wherever the source performs `u16`/`u32`/`i32`
arithmetic; `f64` values that reach the core are modelled by the exact rational
they denote (justified where used).
-/

namespace ArbMvp

/-- Wrapping to the `u16` range, modelling Rust `u16` arithmetic. -/
def u16wrap (n : Nat) : Nat := n % 65536

/-- Wrapping to the `u32` range, modelling Rust `u32` arithmetic. -/
def u32wrap (n : Nat) : Nat := n % 4294967296

/-- Two's-complement wrapping into the `i32` range, modelling Rust `i32` arithmetic. -/
def i32wrap (x : Int) : Int := (x + 2147483648) % 4294967296 - 2147483648

/-- Rust `x as u16` for a signed 64-bit `x`: two's-complement truncation. -/
def i64_as_u16 (x : Int) : Nat := (x % 65536).toNat

/-- Source types.rs line 13: sentinel value for "no price available". -/
def NO_PRICE : Nat := 0

/-- Source config.rs line 6: arbitrage threshold in cents (100 = one dollar). -/
def ARB_THRESHOLD_CENTS : Nat := 100

/-- Source types.rs `kalshi_fee_cents`.  The source computes
`((0.07 * p * (1.0 - p) * 100.0).ceil() as u16).max(1)` in `f64` with
`p = price_cents / 100`.  For every input below 100 the accumulated `f64`
rounding error (below `10 ^ (-12)`) is smaller than the distance from the exact
value `7 * p * (100 - p) / 10000` to the nearest integer (at least `1 / 10000`;
the exact value is never an integer for `p` in `[1, 99]` because
`7 * p * (100 - p) < 70000` is not a multiple of 10000 there), so the `f64`
ceiling agrees with the exact rational ceiling, embedded here as `Nat` ceiling
division `(a + 9999) / 10000`. -/
def kalshi_fee_cents (price_cents : Nat) : Nat :=
  if price_cents = 0 ∨ 100 ≤ price_cents then 0
  else max ((7 * price_cents * (100 - price_cents) + 9999) / 10000) 1

/-- Rust `f64::round`: round half away from zero, on the exact rational value. -/
def f64round (q : ℚ) : Int := if 0 ≤ q then ⌊q + 1 / 2⌋ else -⌊-q + 1 / 2⌋

/-- Rust float-to-`u16` `as` cast of an already-rounded value: saturating
(negative values to 0, values above 65535 to 65535). -/
def int_as_u16_sat (x : Int) : Nat := min x.toNat 65535

/-- Source types.rs `price_to_cents`: `((price * 100.0).round() as u16).clamp(0, 99)`.
The `f64` argument is modelled by the exact rational it denotes; the `clamp(0, 99)`
lower bound is vacuous on `Nat`. -/
def price_to_cents (price : ℚ) : Nat := min (int_as_u16_sat (f64round (price * 100))) 99

/-- Source types.rs `Orderbook`: best ask price/size for YES and NO, in `u16` cents. -/
structure Orderbook where
  yes_ask : Nat
  no_ask : Nat
  yes_size : Nat
  no_size : Nat
deriving DecidableEq, Repr

/-- Source types.rs `ArbType`: the four hedge combinations. -/
inductive ArbType where
  | PolyYesKalshiNo
  | KalshiYesPolyNo
  | PolyOnly
  | KalshiOnly
deriving DecidableEq, Repr

/-- Source types.rs `ArbOpportunity`.  The `market_id` and `description` strings
(copied verbatim from the market pair) and the wall-clock `timestamp` are omitted
from the embedding; every claim is about the remaining fields. -/
structure ArbOpportunity where
  arb_type : ArbType
  yes_price : Nat
  no_price : Nat
  total_cost : Nat
  fee : Nat
  profit : Int
deriving DecidableEq, Repr

/-- The `opportunities` vector built in execution.rs `detect_arbitrage`
(lines 65-89), in source order: combination tag, yes-leg price, no-leg price, fee.
The `KalshiOnly` fee is a `u16` addition in the source, hence the wrap. -/
def opportunities (k_yes k_no p_yes p_no : Nat) : List (ArbType × Nat × Nat × Nat) :=
  [(ArbType.PolyYesKalshiNo, p_yes, k_no, kalshi_fee_cents k_no),
   (ArbType.KalshiYesPolyNo, k_yes, p_no, kalshi_fee_cents k_yes),
   (ArbType.PolyOnly, p_yes, p_no, 0),
   (ArbType.KalshiOnly, k_yes, k_no,
     u16wrap (kalshi_fee_cents k_yes + kalshi_fee_cents k_no))]

/-- `total_cost = yes_price + no_price + fee` computed in `u16` arithmetic
(execution.rs line 95), left-associated as in the source. -/
def comboCost (c : ArbType × Nat × Nat × Nat) : Nat :=
  u16wrap (u16wrap (c.2.1 + c.2.2.1) + c.2.2.2)

/-- `profit = ARB_THRESHOLD_CENTS as i16 - total_cost as i16` (execution.rs line 98);
exact over `Int` because it is only evaluated when `total_cost < 100`. -/
def comboProfit (c : ArbType × Nat × Nat × Nat) : Int :=
  (ARB_THRESHOLD_CENTS : Int) - (comboCost c : Int)

/-- The `ArbOpportunity` value built from one combination (execution.rs lines 100-110). -/
def mkOpp (c : ArbType × Nat × Nat × Nat) : ArbOpportunity :=
  ⟨c.1, c.2.1, c.2.2.1, comboCost c, c.2.2.2, comboProfit c⟩

/-- Loop body of the best-opportunity fold in execution.rs `detect_arbitrage`
(lines 94-116): a combination below the threshold replaces the current best iff
its profit is strictly greater. -/
def step (best : Option ArbOpportunity) (c : ArbType × Nat × Nat × Nat) :
    Option ArbOpportunity :=
  if comboCost c < ARB_THRESHOLD_CENTS then
    match best with
    | none => some (mkOpp c)
    | some b => if b.profit < comboProfit c then some (mkOpp c) else some b
  else best

/-- Source execution.rs `detect_arbitrage` (lines 50-119), as a pure function of
the two orderbooks it reads under their locks. -/
def detect_arbitrage (kalshi poly : Orderbook) : Option ArbOpportunity :=
  if kalshi.yes_ask = NO_PRICE ∨ kalshi.no_ask = NO_PRICE ∨
      poly.yes_ask = NO_PRICE ∨ poly.no_ask = NO_PRICE then
    none
  else
    (opportunities kalshi.yes_ask kalshi.no_ask poly.yes_ask poly.no_ask).foldl step none

/-- Source position_tracker.rs `PositionTracker`.  The `HashMap<String, u16>` of
positions is modelled as a total function that is 0 where the map has no entry,
matching the `unwrap_or(0)` read and `or_insert(0)` write in the source. -/
structure PositionTracker where
  positions : String → Nat
  total_pnl : Int
  trade_count : Nat

/-- Source position_tracker.rs `PositionTracker::new` (the all-zero default). -/
def PositionTracker.new : PositionTracker := ⟨fun _ => 0, 0, 0⟩

/-- Source position_tracker.rs `can_trade` (lines 21-24):
current position strictly below `max_size`. -/
def can_trade (t : PositionTracker) (market_id : String) (max_size : Nat) : Bool :=
  t.positions market_id < max_size

/-- Source position_tracker.rs `get_position` (lines 34-36). -/
def get_position (t : PositionTracker) (market_id : String) : Nat :=
  t.positions market_id

/-- Source position_tracker.rs `record_trade` (lines 27-31), with the source's
fixed-width arithmetic made explicit: the `u16` position increment, the `i32`
P&L accumulation (the `i16` profit argument is sign-extended losslessly), and
the `u32` trade-count increment all wrap. -/
def record_trade (t : PositionTracker) (market_id : String) (profit_cents : Int) :
    PositionTracker :=
  { positions := fun k => if k = market_id then u16wrap (t.positions k + 1)
                          else t.positions k,
    total_pnl := i32wrap (t.total_pnl + profit_cents),
    trade_count := u32wrap (t.trade_count + 1) }

/-- Per-market admission decision of execution.rs `check_arbitrage_opportunities`
(lines 31-43): a detected opportunity is forwarded iff `can_trade` holds,
otherwise it is dropped for this cycle. -/
def gate_opportunity (t : PositionTracker) (market_id : String) (max_size : Nat)
    (detected : Option ArbOpportunity) : Option ArbOpportunity :=
  match detected with
  | none => none
  | some arb => if can_trade t market_id max_size then some arb else none

/-- The fields of a Kalshi `orderbook_delta` message that kalshi.rs
`handle_orderbook_delta` reads after routing by `ticker`: each field is
`some x` iff it is present and `as_i64` succeeds (the field is a JSON integer),
mirroring `msg.get(..).and_then(as_i64)`. -/
structure KalshiDeltaMsg where
  yes_ask : Option Int
  no_ask : Option Int
  yes_ask_size : Option Int
  no_ask_size : Option Int

/-- Source kalshi.rs `handle_orderbook_delta` (lines 140-169): every field
defaults to 0 when missing or non-integer, is cast `as u16`, and the whole
Kalshi book of the routed market is overwritten. -/
def handle_orderbook_delta (msg : KalshiDeltaMsg) : Orderbook :=
  { yes_ask := i64_as_u16 (msg.yes_ask.getD 0),
    no_ask := i64_as_u16 (msg.no_ask.getD 0),
    yes_size := i64_as_u16 (msg.yes_ask_size.getD 0),
    no_size := i64_as_u16 (msg.no_ask_size.getD 0) }

/-- One entry of the `asks` array of a Polymarket `book` message: `price`
(resp. `size`) is `some q` iff the field is present, is a JSON string, and
parses as a finite float whose exact rational value is `q`; `none` collapses
the missing / non-string / unparseable cases, each of which the source maps
to the same default 0. -/
structure PolyAskEntry where
  price : Option ℚ
  size : Option ℚ

/-- A Polymarket `book` message after routing by token id: `is_yes` records
whether the token matched the market's YES token (polymarket.rs line 140),
`asks` is the parsed asks array, `none` when absent or not an array. -/
structure PolyBookMsg where
  is_yes : Bool
  asks : Option (List PolyAskEntry)

/-- Rust `(sz * 100.0) as u16` on a nonnegative-or-negative float: truncation
toward zero with saturation at 0 and 65535; on the exact rational value. -/
def f64_trunc_as_u16 (q : ℚ) : Nat := min (⌊q⌋.toNat) 65535

/-- Source polymarket.rs `handle_book_update` (lines 143-185): best ask price and
size are taken from the first entry of `asks`, defaulting to 0 at every missing
or unparseable step, and written to the YES or NO side of the routed market's
Polymarket book; the other side is untouched. -/
def handle_book_update (msg : PolyBookMsg) (book : Orderbook) : Orderbook :=
  let best_ask_price : Nat :=
    match msg.asks with
    | none => 0
    | some asks => ((asks.head?.bind (fun o => o.price)).map price_to_cents).getD 0
  let best_ask_size : Nat :=
    match msg.asks with
    | none => 0
    | some asks =>
        ((asks.head?.bind (fun o => o.size)).map
          (fun q => f64_trunc_as_u16 (q * 100))).getD 0
  if msg.is_yes then
    { book with yes_ask := best_ask_price, yes_size := best_ask_size }
  else
    { book with no_ask := best_ask_price, no_size := best_ask_size }

/-- The spec's fee formula, written as the spec writes it:
`max(1, ceil(0.07 * (p/100) * (1 - p/100) * 100))` over exact rationals
(`0.07` denotes exactly `7/100`), with the 0-fee guard. -/
def fee_spec (p : Nat) : Int :=
  if p = 0 ∨ 100 ≤ p then 0
  else max 1 ⌈(7 / 100 : ℚ) * ((p : ℚ) / 100) * (1 - (p : ℚ) / 100) * 100⌉

/-- The spec's prescription for the detector's result on a combination list `l`:
no result iff no combination's cost is below the threshold; otherwise the result
is built from a qualifying combination of maximal profit such that every earlier
qualifying combination has strictly smaller profit (ties go to the earliest). -/
def IsWinner (l : List (ArbType × Nat × Nat × Nat)) (r : Option ArbOpportunity) : Prop :=
  (r = none ↔ ∀ c ∈ l, ¬ comboCost c < ARB_THRESHOLD_CENTS) ∧
  ∀ opp, r = some opp → ∃ l₁ c l₂, l = l₁ ++ c :: l₂ ∧ opp = mkOpp c ∧
    comboCost c < ARB_THRESHOLD_CENTS ∧
    (∀ d ∈ l, comboCost d < ARB_THRESHOLD_CENTS → comboProfit d ≤ comboProfit c) ∧
    (∀ d ∈ l₁, comboCost d < ARB_THRESHOLD_CENTS → comboProfit d < comboProfit c)

/-- Price values the data model declares storable: the sentinel or a valid
quoted price in `[1, 99]`. -/
def InPriceRange (v : Nat) : Prop := v = 0 ∨ (1 ≤ v ∧ v ≤ 99)

theorem kalshi_fee_cents_le_two (p : Nat) : kalshi_fee_cents p ≤ 2 := by
  unfold kalshi_fee_cents
  split
  · omega
  · rename_i h
    push_neg at h
    have h1 : 1 ≤ p := by omega
    have h2 : p ≤ 99 := by omega
    interval_cases p <;> decide

theorem foldl_step_winner (l : List (ArbType × Nat × Nat × Nat)) :
    IsWinner l (l.foldl step none) := by
  induction l using List.reverseRecOn with
  | nil => exact ⟨by simp, by simp⟩
  | append_singleton l a ih =>
    obtain ⟨h1, h2⟩ := ih
    rw [List.foldl_append]
    simp only [List.foldl_cons, List.foldl_nil]
    by_cases hq : comboCost a < ARB_THRESHOLD_CENTS
    · rcases hr : l.foldl step none with _ | b
      · rw [hr] at h1
        have hall : ∀ c ∈ l, ¬ comboCost c < ARB_THRESHOLD_CENTS := h1.mp rfl
        constructor
        · constructor
          · intro h; simp [step, hq] at h
          · intro h; exact absurd hq (h a (by simp))
        · intro opp hopp
          simp only [step, if_pos hq] at hopp
          refine ⟨l, a, [], by simp, ?_, hq, ?_, ?_⟩
          · exact (Option.some.injEq _ _ ▸ hopp).symm
          · intro d hd hdq
            rcases List.mem_append.mp hd with hd | hd
            · exact absurd hdq (hall d hd)
            · simp at hd; subst hd; exact le_refl _
          · intro d hd hdq
            exact absurd hdq (hall d hd)
      · rw [hr] at h2
        obtain ⟨l₁, c, l₂, hsplit, hb, hcq, hmax, hpre⟩ := h2 b rfl
        have hbp : b.profit = comboProfit c := by rw [hb]; rfl
        by_cases hlt : b.profit < comboProfit a
        · constructor
          · constructor
            · intro h; simp [step, hq, hlt] at h
            · intro h; exact absurd hq (h a (by simp))
          · intro opp hopp
            simp only [step, if_pos hq, if_pos hlt, Option.some.injEq] at hopp
            refine ⟨l, a, [], by simp, hopp.symm, hq, ?_, ?_⟩
            · intro d hd hdq
              rcases List.mem_append.mp hd with hd | hd
              · exact le_of_lt (lt_of_le_of_lt (hmax d hd hdq) (hbp ▸ hlt))
              · simp at hd; subst hd; exact le_refl _
            · intro d hd hdq
              exact lt_of_le_of_lt (hmax d hd hdq) (hbp ▸ hlt)
        · constructor
          · constructor
            · intro h; simp [step, hq, hlt] at h
            · intro h; exact absurd hq (h a (by simp))
          · intro opp hopp
            simp only [step, if_pos hq, if_neg hlt, Option.some.injEq] at hopp
            refine ⟨l₁, c, l₂ ++ [a], by rw [hsplit]; simp, by rw [← hopp, hb], hcq,
              ?_, hpre⟩
            intro d hd hdq
            rcases List.mem_append.mp hd with hd | hd
            · exact hmax d hd hdq
            · simp at hd; subst hd
              rw [← hbp]; exact le_of_not_lt hlt
    · have hstep : step (l.foldl step none) a = l.foldl step none := by
        simp [step, hq]
      rw [hstep]
      constructor
      · rw [h1]
        constructor
        · intro h c hc
          rcases List.mem_append.mp hc with hc | hc
          · exact h c hc
          · simp at hc; subst hc; exact hq
        · intro h c hc
          exact h c (List.mem_append.mpr (Or.inl hc))
      · intro opp hopp
        obtain ⟨l₁, c, l₂, hsplit, hb, hcq, hmax, hpre⟩ := h2 opp hopp
        refine ⟨l₁, c, l₂ ++ [a], by rw [hsplit]; simp, hb, hcq, ?_, hpre⟩
        intro d hd hdq
        rcases List.mem_append.mp hd with hd | hd
        · exact hmax d hd hdq
        · simp at hd; subst hd; exact absurd hdq hq

/-- C2: for a market whose four prices are all non-sentinel, `detect_arbitrage`
evaluates the four combinations in the fixed source order given by
`opportunities`; it returns `none` iff no combination has `total_cost` below the
100-cent threshold, and otherwise returns exactly one opportunity, built from a
qualifying combination of maximal `profit = 100 - total_cost` such that every
earlier qualifying combination has strictly smaller profit (ties go to the
earliest combination). -/
theorem detect_arbitrage_selects_winner (kalshi poly : Orderbook)
    (hky : kalshi.yes_ask ≠ NO_PRICE) (hkn : kalshi.no_ask ≠ NO_PRICE)
    (hpy : poly.yes_ask ≠ NO_PRICE) (hpn : poly.no_ask ≠ NO_PRICE) :
    IsWinner (opportunities kalshi.yes_ask kalshi.no_ask poly.yes_ask poly.no_ask)
      (detect_arbitrage kalshi poly) := by
  unfold detect_arbitrage
  rw [if_neg (by tauto)]
  exact foldl_step_winner _

theorem detect_arbitrage_selects_winner_witness :
    IsWinner (opportunities 40 40 40 40)
      (detect_arbitrage ⟨40, 40, 100, 100⟩ ⟨40, 40, 100, 100⟩) :=
  detect_arbitrage_selects_winner ⟨40, 40, 100, 100⟩ ⟨40, 40, 100, 100⟩
    (by decide) (by decide) (by decide) (by decide)

/-- C4: if any of the four relevant prices equals the no-quote sentinel 0,
`detect_arbitrage` returns `none` for that market in that cycle. -/
theorem detect_arbitrage_sentinel_skip (kalshi poly : Orderbook)
    (h : kalshi.yes_ask = NO_PRICE ∨ kalshi.no_ask = NO_PRICE ∨
      poly.yes_ask = NO_PRICE ∨ poly.no_ask = NO_PRICE) :
    detect_arbitrage kalshi poly = none := by
  unfold detect_arbitrage
  rw [if_pos h]

theorem detect_arbitrage_sentinel_skip_witness :
    detect_arbitrage ⟨0, 40, 100, 100⟩ ⟨40, 40, 100, 100⟩ = none :=
  detect_arbitrage_sentinel_skip ⟨0, 40, 100, 100⟩ ⟨40, 40, 100, 100⟩ (by decide)

theorem detect_arbitrage_some_mem (kalshi poly : Orderbook) (opp : ArbOpportunity)
    (h : detect_arbitrage kalshi poly = some opp) :
    kalshi.yes_ask ≠ NO_PRICE ∧ kalshi.no_ask ≠ NO_PRICE ∧
    poly.yes_ask ≠ NO_PRICE ∧ poly.no_ask ≠ NO_PRICE ∧
    ∃ c ∈ opportunities kalshi.yes_ask kalshi.no_ask poly.yes_ask poly.no_ask,
      opp = mkOpp c ∧ comboCost c < ARB_THRESHOLD_CENTS := by
  unfold detect_arbitrage at h
  split at h
  · exact absurd h (by simp)
  · rename_i hguard
    push_neg at hguard
    obtain ⟨h1, h2⟩ :=
      foldl_step_winner (opportunities kalshi.yes_ask kalshi.no_ask poly.yes_ask poly.no_ask)
    obtain ⟨l₁, c, l₂, hsplit, hb, hcq, hmax, hpre⟩ := h2 opp h
    exact ⟨hguard.1, hguard.2.1, hguard.2.2.1, hguard.2.2.2, c,
      hsplit ▸ List.mem_append.mpr (Or.inr (List.mem_cons_self c l₂)), hb, hcq⟩

/-- C3: whenever the detector produces an opportunity, its `total_cost` is
`yes_price + no_price + fee` in `u16` arithmetic, and the fee charges only the
Kalshi legs: `fee(kalshi.no_ask)` for Poly YES + Kalshi NO,
`fee(kalshi.yes_ask)` for Kalshi YES + Poly NO, 0 for the Poly-only
combination, and `fee(kalshi.yes_ask) + fee(kalshi.no_ask)` for the
Kalshi-only combination, each leg priced from the corresponding orderbook. -/
theorem detect_arbitrage_fee_assignment (kalshi poly : Orderbook) (opp : ArbOpportunity)
    (h : detect_arbitrage kalshi poly = some opp) :
    opp.total_cost = u16wrap (u16wrap (opp.yes_price + opp.no_price) + opp.fee) ∧
    (opp.arb_type = ArbType.PolyYesKalshiNo →
      opp.yes_price = poly.yes_ask ∧ opp.no_price = kalshi.no_ask ∧
      opp.fee = kalshi_fee_cents kalshi.no_ask) ∧
    (opp.arb_type = ArbType.KalshiYesPolyNo →
      opp.yes_price = kalshi.yes_ask ∧ opp.no_price = poly.no_ask ∧
      opp.fee = kalshi_fee_cents kalshi.yes_ask) ∧
    (opp.arb_type = ArbType.PolyOnly →
      opp.yes_price = poly.yes_ask ∧ opp.no_price = poly.no_ask ∧ opp.fee = 0) ∧
    (opp.arb_type = ArbType.KalshiOnly →
      opp.yes_price = kalshi.yes_ask ∧ opp.no_price = kalshi.no_ask ∧
      opp.fee = kalshi_fee_cents kalshi.yes_ask + kalshi_fee_cents kalshi.no_ask) := by
  obtain ⟨-, -, -, -, c, hc, hb, -⟩ := detect_arbitrage_some_mem kalshi poly opp h
  have hfy := kalshi_fee_cents_le_two kalshi.yes_ask
  have hfn := kalshi_fee_cents_le_two kalshi.no_ask
  have hwrap : u16wrap (kalshi_fee_cents kalshi.yes_ask + kalshi_fee_cents kalshi.no_ask)
      = kalshi_fee_cents kalshi.yes_ask + kalshi_fee_cents kalshi.no_ask := by
    unfold u16wrap; omega
  subst hb
  simp only [opportunities, List.mem_cons, List.not_mem_nil, or_false] at hc
  rcases hc with hc | hc | hc | hc <;> subst hc <;>
    simp [mkOpp, comboCost, hwrap]

/-- C9: whenever the detector produces an opportunity, its fields are mutually
consistent: the leg prices are non-sentinel, `total_cost` is
`yes_price + no_price + fee` in `u16` arithmetic, `total_cost` is below the
100-cent threshold, `profit = 100 - total_cost`, and hence `profit ≥ 1`. -/
theorem detect_arbitrage_some_consistent (kalshi poly : Orderbook) (opp : ArbOpportunity)
    (h : detect_arbitrage kalshi poly = some opp) :
    opp.yes_price ≠ 0 ∧ opp.no_price ≠ 0 ∧
    opp.total_cost = u16wrap (u16wrap (opp.yes_price + opp.no_price) + opp.fee) ∧
    opp.total_cost < 100 ∧
    opp.profit = 100 - (opp.total_cost : Int) ∧ 1 ≤ opp.profit := by
  obtain ⟨hky, hkn, hpy, hpn, c, hc, hb, hcq⟩ := detect_arbitrage_some_mem kalshi poly opp h
  have hthr : ARB_THRESHOLD_CENTS = 100 := rfl
  rw [hthr] at hcq
  subst hb
  simp only [opportunities, List.mem_cons, List.not_mem_nil, or_false] at hc
  have hprofit : ∀ d, (mkOpp d).profit = 100 - ((mkOpp d).total_cost : Int) := by
    intro d; simp [mkOpp, comboProfit, ARB_THRESHOLD_CENTS]
  rcases hc with hc | hc | hc | hc <;> subst hc <;>
    refine ⟨by simpa [mkOpp] using ‹_ ≠ NO_PRICE›, by simpa [mkOpp] using ‹_ ≠ NO_PRICE›,
      by simp [mkOpp, comboCost], hcq, hprofit _, ?_⟩ <;>
    · have : (mkOpp _).total_cost < 100 := hcq
      rw [hprofit _]
      omega

/-- C10: when the four prices read by the detector lie in `[0, 99]`, no `u16`
addition in `detect_arbitrage` overflows: the fee-sum of the Kalshi-only
combination and every combination's `total_cost = yes + no + fee` (at most 202,
fees being at most 2 per leg) are computed exactly, and
`profit = 100 - total_cost` lies within the `i16` range. -/
theorem detect_arbitrage_no_overflow (kalshi poly : Orderbook)
    (hky : kalshi.yes_ask ≤ 99) (hkn : kalshi.no_ask ≤ 99)
    (hpy : poly.yes_ask ≤ 99) (hpn : poly.no_ask ≤ 99) :
    u16wrap (kalshi_fee_cents kalshi.yes_ask + kalshi_fee_cents kalshi.no_ask)
      = kalshi_fee_cents kalshi.yes_ask + kalshi_fee_cents kalshi.no_ask ∧
    ∀ c ∈ opportunities kalshi.yes_ask kalshi.no_ask poly.yes_ask poly.no_ask,
      c.2.1 + c.2.2.1 + c.2.2.2 ≤ 202 ∧
      comboCost c = c.2.1 + c.2.2.1 + c.2.2.2 ∧
      -32768 ≤ comboProfit c ∧ comboProfit c ≤ 32767 := by
  have hfy := kalshi_fee_cents_le_two kalshi.yes_ask
  have hfn := kalshi_fee_cents_le_two kalshi.no_ask
  constructor
  · unfold u16wrap; omega
  · intro c hc
    simp only [opportunities, List.mem_cons, List.not_mem_nil, or_false] at hc
    rcases hc with hc | hc | hc | hc <;> subst hc <;>
      refine ⟨by simp [u16wrap]; omega, by simp [comboCost, u16wrap]; omega, ?_, ?_⟩ <;>
      · simp only [comboProfit, ARB_THRESHOLD_CENTS, comboCost, u16wrap]
        omega

theorem detect_arbitrage_no_overflow_witness :
    u16wrap (kalshi_fee_cents 99 + kalshi_fee_cents 99)
      = kalshi_fee_cents 99 + kalshi_fee_cents 99 ∧
    ∀ c ∈ opportunities 99 99 99 99,
      c.2.1 + c.2.2.1 + c.2.2.2 ≤ 202 ∧
      comboCost c = c.2.1 + c.2.2.1 + c.2.2.2 ∧
      -32768 ≤ comboProfit c ∧ comboProfit c ≤ 32767 :=
  detect_arbitrage_no_overflow ⟨99, 99, 0, 0⟩ ⟨99, 99, 0, 0⟩
    (by decide) (by decide) (by decide) (by decide)

theorem detect_arbitrage_fee_assignment_witness :
    detect_arbitrage ⟨30, 45, 0, 0⟩ ⟨35, 40, 0, 0⟩
      = some ⟨ArbType.KalshiYesPolyNo, 30, 40, 72, 2, 28⟩ ∧
    (72 : Nat) = u16wrap (u16wrap (30 + 40) + 2) ∧
    (2 : Nat) = kalshi_fee_cents 30 :=
  ⟨by decide,
   (detect_arbitrage_fee_assignment ⟨30, 45, 0, 0⟩ ⟨35, 40, 0, 0⟩
      ⟨ArbType.KalshiYesPolyNo, 30, 40, 72, 2, 28⟩ (by decide)).1,
   ((detect_arbitrage_fee_assignment ⟨30, 45, 0, 0⟩ ⟨35, 40, 0, 0⟩
      ⟨ArbType.KalshiYesPolyNo, 30, 40, 72, 2, 28⟩ (by decide)).2.2.1 rfl).2.2⟩

theorem detect_arbitrage_some_consistent_witness :
    (⟨ArbType.KalshiYesPolyNo, 30, 40, 72, 2, 28⟩ : ArbOpportunity).yes_price ≠ 0 ∧
    (⟨ArbType.KalshiYesPolyNo, 30, 40, 72, 2, 28⟩ : ArbOpportunity).no_price ≠ 0 ∧
    (⟨ArbType.KalshiYesPolyNo, 30, 40, 72, 2, 28⟩ : ArbOpportunity).total_cost
      = u16wrap (u16wrap
          ((⟨ArbType.KalshiYesPolyNo, 30, 40, 72, 2, 28⟩ : ArbOpportunity).yes_price +
            (⟨ArbType.KalshiYesPolyNo, 30, 40, 72, 2, 28⟩ : ArbOpportunity).no_price) +
          (⟨ArbType.KalshiYesPolyNo, 30, 40, 72, 2, 28⟩ : ArbOpportunity).fee) ∧
    (⟨ArbType.KalshiYesPolyNo, 30, 40, 72, 2, 28⟩ : ArbOpportunity).total_cost < 100 ∧
    (⟨ArbType.KalshiYesPolyNo, 30, 40, 72, 2, 28⟩ : ArbOpportunity).profit
      = 100 - ((⟨ArbType.KalshiYesPolyNo, 30, 40, 72, 2, 28⟩ : ArbOpportunity).total_cost : Int) ∧
    1 ≤ (⟨ArbType.KalshiYesPolyNo, 30, 40, 72, 2, 28⟩ : ArbOpportunity).profit :=
  detect_arbitrage_some_consistent ⟨30, 45, 0, 0⟩ ⟨35, 40, 0, 0⟩
    ⟨ArbType.KalshiYesPolyNo, 30, 40, 72, 2, 28⟩ (by decide)

theorem nat_ceilDiv_eq_rat_ceil (a : Nat) :
    (((a + 9999) / 10000 : Nat) : Int) = ⌈((a : ℚ)) / 10000⌉ := by
  set d : ℕ := (a + 9999) / 10000 with hd
  have h1 : a ≤ 10000 * d := by omega
  have h2 : 10000 * d ≤ a + 9999 := by omega
  have h1' : (a : ℚ) ≤ 10000 * (d : ℚ) := by exact_mod_cast h1
  have h2' : 10000 * (d : ℚ) ≤ (a : ℚ) + 9999 := by exact_mod_cast h2
  symm
  rw [Int.ceil_eq_iff]
  constructor
  · rw [lt_div_iff₀ (by norm_num : (0 : ℚ) < 10000)]
    push_cast
    linarith
  · rw [div_le_iff₀ (by norm_num : (0 : ℚ) < 10000)]
    push_cast
    linarith

/-- C1: `kalshi_fee_cents` agrees with the spec's fee formula
`max(1, ceil(0.07 * (p/100) * (1 - p/100) * 100))` evaluated over exact
rationals for every price (the embedded ceiling division is exactly that
rational ceiling), is 0 at 0 and at every price at or above 100, takes the
spec's sample values at 50 and 10, and is at least 1 on all of `[1, 99]`. -/
theorem kalshi_fee_cents_matches_spec :
    (∀ p : Nat, (kalshi_fee_cents p : Int) = fee_spec p) ∧
    kalshi_fee_cents 50 = 2 ∧ kalshi_fee_cents 10 = 1 ∧
    kalshi_fee_cents 0 = 0 ∧ kalshi_fee_cents 100 = 0 ∧
    (∀ p : Nat, 100 ≤ p → kalshi_fee_cents p = 0) ∧
    ∀ p : Nat, 1 ≤ p → p ≤ 99 → 1 ≤ kalshi_fee_cents p := by
  refine ⟨?_, by decide, by decide, by decide, by decide, ?_, ?_⟩
  · intro p
    by_cases hc : p = 0 ∨ 100 ≤ p
    · simp [kalshi_fee_cents, fee_spec, hc]
    · push_neg at hc
      have hle : p ≤ 100 := by omega
      have hexpr : (7 / 100 : ℚ) * ((p : ℚ) / 100) * (1 - (p : ℚ) / 100) * 100
          = ((7 * p * (100 - p) : ℕ) : ℚ) / 10000 := by
        have hcast : ((100 - p : ℕ) : ℚ) = 100 - (p : ℚ) := by
          push_cast [Nat.cast_sub hle]
          ring
        push_cast [hcast]
        ring
      simp only [kalshi_fee_cents, fee_spec, if_neg (show ¬(p = 0 ∨ 100 ≤ p) by omega),
        hexpr]
      rw [← nat_ceilDiv_eq_rat_ceil]
      push_cast [Nat.cast_max]
      rw [max_comm]
  · intro p hp
    simp [kalshi_fee_cents, Or.inr hp]
  · intro p h1 h2
    unfold kalshi_fee_cents
    rw [if_neg (by omega)]
    exact Nat.le_max_right _ _

theorem kalshi_fee_cents_matches_spec_witness :
    (kalshi_fee_cents 40 : Int) = fee_spec 40 ∧
    kalshi_fee_cents 150 = 0 ∧ 1 ≤ kalshi_fee_cents 40 :=
  ⟨kalshi_fee_cents_matches_spec.1 40,
   kalshi_fee_cents_matches_spec.2.2.2.2.2.1 150 (by decide),
   kalshi_fee_cents_matches_spec.2.2.2.2.2.2 40 (by decide) (by decide)⟩

theorem record_trade_positions_self (t : PositionTracker) (market_id : String)
    (profit_cents : Int) :
    (record_trade t market_id profit_cents).positions market_id
      = u16wrap (t.positions market_id + 1) := by
  simp [record_trade]

theorem iterate_record_trade_position (market_id : String) (profit_cents : Int) (n : Nat)
    (hn : n ≤ 65535) :
    ((fun s => record_trade s market_id profit_cents)^[n] PositionTracker.new).positions
      market_id = n := by
  induction n with
  | zero => rfl
  | succ k ih =>
    have hk : k ≤ 65535 := by omega
    rw [Function.iterate_succ_apply', record_trade_positions_self, ih hk]
    unfold u16wrap
    omega

/-- C5: `can_trade` returns true iff the tracker's recorded position for the
market (0 when it has never traded) is strictly below `max_size`; after
`max_size` recorded trades for a market (with `max_size` in the `u16` range)
`can_trade` returns false for it, and the detector's admission gate then drops
any detected opportunity instead of forwarding it. -/
theorem can_trade_iff_below_limit :
    (∀ (t : PositionTracker) (market_id : String) (max_size : Nat),
      can_trade t market_id max_size = true ↔ t.positions market_id < max_size) ∧
    (∀ (market_id : String) (profit_cents : Int) (max_size : Nat), max_size ≤ 65535 →
      can_trade ((fun s => record_trade s market_id profit_cents)^[max_size]
        PositionTracker.new) market_id max_size = false) ∧
    (∀ (t : PositionTracker) (market_id : String) (max_size : Nat)
      (detected : Option ArbOpportunity), ¬ t.positions market_id < max_size →
      gate_opportunity t market_id max_size detected = none) := by
  refine ⟨?_, ?_, ?_⟩
  · intro t market_id max_size
    simp [can_trade]
  · intro market_id profit_cents max_size hmax
    unfold can_trade
    rw [iterate_record_trade_position market_id profit_cents max_size hmax]
    simp
  · intro t market_id max_size detected hlim
    unfold gate_opportunity
    cases detected
    · rfl
    · simp [can_trade, hlim]

theorem can_trade_iff_below_limit_witness :
    (can_trade PositionTracker.new "mkt" 10 = true ↔
      PositionTracker.new.positions "mkt" < 10) ∧
    can_trade ((fun s => record_trade s "mkt" 5)^[10] PositionTracker.new) "mkt" 10
      = false ∧
    gate_opportunity PositionTracker.new "mkt" 0 none = none :=
  ⟨can_trade_iff_below_limit.1 PositionTracker.new "mkt" 10,
   can_trade_iff_below_limit.2.1 "mkt" 5 10 (by norm_num),
   can_trade_iff_below_limit.2.2 PositionTracker.new "mkt" 0 none (by simp)⟩

/-- C6 counterexample: from the tracker state whose position for "mkt" is
65535 (`u16::MAX`), `record_trade` wraps the `u16` counter to 0 instead of
incrementing it by one, so the position strictly decreases — refuting the
claim's "from every tracker state it increments the counter by exactly one"
and the monotone non-decrease of positions. -/
theorem record_trade_wraps_at_u16_max :
    (record_trade ⟨fun k => if k = "mkt" then 65535 else 0, 0, 0⟩ "mkt" 0).positions "mkt"
      = 0 ∧
    (⟨fun k => if k = "mkt" then 65535 else 0, 0, 0⟩ :
      PositionTracker).positions "mkt" = 65535 ∧
    (record_trade ⟨fun k => if k = "mkt" then 65535 else 0, 0, 0⟩ "mkt" 0).positions "mkt"
      < (⟨fun k => if k = "mkt" then 65535 else 0, 0, 0⟩ :
          PositionTracker).positions "mkt" := by
  refine ⟨?_, by simp, ?_⟩ <;> simp [record_trade, u16wrap]

/-- C6 (amended): `record_trade` is unconditional and total; from every tracker
state in which the market's position counter is below `u16::MAX` (65535), the
accumulated P&L stays inside the `i32` range, and the trade count is below
`u32::MAX`, it increments the market's counter by exactly one, leaves other
markets unchanged, adds the signed profit to cumulative P&L, increments the
trade count by one, and reduces no position.  (At a counter of exactly 65535
the `u16` increment wraps to 0, which is what forces the bounds.) -/
theorem record_trade_increments (t : PositionTracker) (market_id : String)
    (profit_cents : Int)
    (hpos : t.positions market_id < 65535)
    (hlo : -2147483648 ≤ t.total_pnl + profit_cents)
    (hhi : t.total_pnl + profit_cents ≤ 2147483647)
    (hcnt : t.trade_count < 4294967295) :
    (record_trade t market_id profit_cents).positions market_id
      = t.positions market_id + 1 ∧
    (∀ k, k ≠ market_id →
      (record_trade t market_id profit_cents).positions k = t.positions k) ∧
    (record_trade t market_id profit_cents).total_pnl = t.total_pnl + profit_cents ∧
    (record_trade t market_id profit_cents).trade_count = t.trade_count + 1 ∧
    ∀ k, t.positions k ≤ (record_trade t market_id profit_cents).positions k := by
  refine ⟨?_, ?_, ?_, ?_, ?_⟩
  · rw [record_trade_positions_self]
    unfold u16wrap
    omega
  · intro k hk
    simp [record_trade, hk]
  · simp only [record_trade]
    unfold i32wrap
    omega
  · simp only [record_trade]
    unfold u32wrap
    omega
  · intro k
    by_cases hk : k = market_id
    · subst hk
      rw [record_trade_positions_self]
      unfold u16wrap
      omega
    · simp [record_trade, hk]

theorem price_to_cents_le_99 (q : ℚ) : price_to_cents q ≤ 99 := by
  unfold price_to_cents
  exact Nat.min_le_right _ _

theorem inPriceRange_of_le (v : Nat) (h : v ≤ 99) : InPriceRange v := by
  unfold InPriceRange
  omega

/-- C7 counterexample: a Kalshi `orderbook_delta` message carrying `yes_ask = 150`
makes the Kalshi handler store 150, which is neither the sentinel 0 nor a valid
quoted price in `[1, 99]` — the handler performs no range validation, so the
claimed invariant does not hold for every incoming message. -/
theorem kalshi_handler_stores_out_of_range :
    (handle_orderbook_delta ⟨some 150, some 30, some 0, some 0⟩).yes_ask = 150 ∧
    ¬ InPriceRange (handle_orderbook_delta ⟨some 150, some 30, some 0, some 0⟩).yes_ask := by
  constructor
  · decide
  · unfold InPriceRange
    decide

/-- C7 (amended): every price the Polymarket handler stores is the sentinel or
lies in `[1, 99]` (its `price_to_cents` clamps to `[0, 99]`), unconditionally;
the Kalshi handler stores the message value truncated `as u16` without range
validation, so its stored prices satisfy the invariant only when the incoming
values (0 when missing) already lie in `[0, 99]`. -/
theorem stored_prices_in_range (msgK : KalshiDeltaMsg) (msgP : PolyBookMsg)
    (book : Orderbook)
    (hy : 0 ≤ msgK.yes_ask.getD 0 ∧ msgK.yes_ask.getD 0 ≤ 99)
    (hn : 0 ≤ msgK.no_ask.getD 0 ∧ msgK.no_ask.getD 0 ≤ 99) :
    InPriceRange (handle_orderbook_delta msgK).yes_ask ∧
    InPriceRange (handle_orderbook_delta msgK).no_ask ∧
    (msgP.is_yes = true → InPriceRange (handle_book_update msgP book).yes_ask) ∧
    (msgP.is_yes = false → InPriceRange (handle_book_update msgP book).no_ask) := by
  refine ⟨?_, ?_, ?_, ?_⟩
  · apply inPriceRange_of_le
    simp only [handle_orderbook_delta, i64_as_u16]
    omega
  · apply inPriceRange_of_le
    simp only [handle_orderbook_delta, i64_as_u16]
    omega
  · intro hyes
    apply inPriceRange_of_le
    unfold handle_book_update
    rw [hyes]
    simp only [if_pos]
    rcases msgP.asks with _ | asks
    · simp
    · rcases hhead : asks.head?.bind (fun o => o.price) with _ | q
      · simp [hhead]
      · simp [hhead, price_to_cents_le_99]
  · intro hno
    apply inPriceRange_of_le
    unfold handle_book_update
    rw [hno]
    simp only [Bool.false_eq_true, if_neg, if_false]
    rcases msgP.asks with _ | asks
    · simp
    · rcases hhead : asks.head?.bind (fun o => o.price) with _ | q
      · simp [hhead]
      · simp [hhead, price_to_cents_le_99]

theorem stored_prices_in_range_witness :
    InPriceRange (handle_orderbook_delta ⟨some 50, none, some 0, some 0⟩).yes_ask ∧
    InPriceRange (handle_orderbook_delta ⟨some 50, none, some 0, some 0⟩).no_ask ∧
    (true = true → InPriceRange
      (handle_book_update ⟨true, some [⟨some (1 / 2), some 10⟩]⟩ ⟨1, 2, 3, 4⟩).yes_ask) ∧
    (true = false → InPriceRange
      (handle_book_update ⟨true, some [⟨some (1 / 2), some 10⟩]⟩ ⟨1, 2, 3, 4⟩).no_ask) :=
  stored_prices_in_range ⟨some 50, none, some 0, some 0⟩
    ⟨true, some [⟨some (1 / 2), some 10⟩]⟩ ⟨1, 2, 3, 4⟩
    (by decide) (by decide)

/-- C8: a missing (or unparseable) price field never fails the message: the
Kalshi handler stores the sentinel 0 for that price while still applying the
message's remaining fields, the Polymarket handler stores the sentinel 0 for
the updated side's price while still applying the parsed size and leaving the
other side untouched, and downstream detection treats the sentinel as a skip
of the market for the cycle. -/
theorem missing_price_defaults_to_sentinel :
    (∀ msg : KalshiDeltaMsg, msg.yes_ask = none →
      (handle_orderbook_delta msg).yes_ask = 0 ∧
      (handle_orderbook_delta msg).no_ask = i64_as_u16 (msg.no_ask.getD 0) ∧
      (handle_orderbook_delta msg).yes_size = i64_as_u16 (msg.yes_ask_size.getD 0) ∧
      (handle_orderbook_delta msg).no_size = i64_as_u16 (msg.no_ask_size.getD 0)) ∧
    (∀ msg : KalshiDeltaMsg, msg.no_ask = none →
      (handle_orderbook_delta msg).no_ask = 0 ∧
      (handle_orderbook_delta msg).yes_ask = i64_as_u16 (msg.yes_ask.getD 0)) ∧
    (∀ (e : PolyAskEntry) (rest : List PolyAskEntry) (book : Orderbook),
      e.price = none →
      (handle_book_update ⟨true, some (e :: rest)⟩ book).yes_ask = 0 ∧
      (handle_book_update ⟨true, some (e :: rest)⟩ book).yes_size
        = (e.size.map (fun q => f64_trunc_as_u16 (q * 100))).getD 0 ∧
      (handle_book_update ⟨true, some (e :: rest)⟩ book).no_ask = book.no_ask ∧
      (handle_book_update ⟨true, some (e :: rest)⟩ book).no_size = book.no_size) ∧
    (∀ (e : PolyAskEntry) (rest : List PolyAskEntry) (book : Orderbook),
      e.price = none →
      (handle_book_update ⟨false, some (e :: rest)⟩ book).no_ask = 0 ∧
      (handle_book_update ⟨false, some (e :: rest)⟩ book).no_size
        = (e.size.map (fun q => f64_trunc_as_u16 (q * 100))).getD 0 ∧
      (handle_book_update ⟨false, some (e :: rest)⟩ book).yes_ask = book.yes_ask) ∧
    (∀ kalshi poly : Orderbook, kalshi.yes_ask = NO_PRICE →
      detect_arbitrage kalshi poly = none) ∧
    (∀ kalshi poly : Orderbook, poly.yes_ask = NO_PRICE →
      detect_arbitrage kalshi poly = none) := by
  refine ⟨?_, ?_, ?_, ?_, ?_, ?_⟩
  · intro msg h
    refine ⟨?_, rfl, rfl, rfl⟩
    simp [handle_orderbook_delta, h, i64_as_u16]
  · intro msg h
    refine ⟨?_, rfl⟩
    simp [handle_orderbook_delta, h, i64_as_u16]
  · intro e rest book h
    simp [handle_book_update, h]
  · intro e rest book h
    simp [handle_book_update, h]
  · intro kalshi poly h
    unfold detect_arbitrage
    rw [if_pos (Or.inl h)]
  · intro kalshi poly h
    unfold detect_arbitrage
    rw [if_pos (Or.inr (Or.inr (Or.inl h)))]

theorem missing_price_defaults_to_sentinel_witness :
    ((handle_orderbook_delta ⟨none, some 30, some 7, some 8⟩).yes_ask = 0 ∧
      (handle_orderbook_delta ⟨none, some 30, some 7, some 8⟩).no_ask
        = i64_as_u16 ((some (30 : Int)).getD 0) ∧
      (handle_orderbook_delta ⟨none, some 30, some 7, some 8⟩).yes_size
        = i64_as_u16 ((some (7 : Int)).getD 0) ∧
      (handle_orderbook_delta ⟨none, some 30, some 7, some 8⟩).no_size
        = i64_as_u16 ((some (8 : Int)).getD 0)) ∧
    ((handle_book_update ⟨true, some [⟨none, some 10⟩]⟩ ⟨1, 2, 3, 4⟩).yes_ask = 0 ∧
      (handle_book_update ⟨true, some [⟨none, some 10⟩]⟩ ⟨1, 2, 3, 4⟩).yes_size
        = ((some (10 : ℚ)).map (fun q => f64_trunc_as_u16 (q * 100))).getD 0 ∧
      (handle_book_update ⟨true, some [⟨none, some 10⟩]⟩ ⟨1, 2, 3, 4⟩).no_ask = 2 ∧
      (handle_book_update ⟨true, some [⟨none, some 10⟩]⟩ ⟨1, 2, 3, 4⟩).no_size = 4) ∧
    detect_arbitrage ⟨0, 30, 0, 0⟩ ⟨40, 40, 0, 0⟩ = none :=
  ⟨missing_price_defaults_to_sentinel.1 ⟨none, some 30, some 7, some 8⟩ rfl,
   missing_price_defaults_to_sentinel.2.2.1 ⟨none, some 10⟩ [] ⟨1, 2, 3, 4⟩ rfl,
   missing_price_defaults_to_sentinel.2.2.2.2.1 ⟨0, 30, 0, 0⟩ ⟨40, 40, 0, 0⟩ rfl⟩

theorem record_trade_increments_witness :
    (record_trade PositionTracker.new "mkt" 7).positions "mkt"
      = PositionTracker.new.positions "mkt" + 1 ∧
    (∀ k, k ≠ "mkt" →
      (record_trade PositionTracker.new "mkt" 7).positions k
        = PositionTracker.new.positions k) ∧
    (record_trade PositionTracker.new "mkt" 7).total_pnl
      = PositionTracker.new.total_pnl + 7 ∧
    (record_trade PositionTracker.new "mkt" 7).trade_count
      = PositionTracker.new.trade_count + 1 ∧
    ∀ k, PositionTracker.new.positions k
      ≤ (record_trade PositionTracker.new "mkt" 7).positions k :=
  record_trade_increments PositionTracker.new "mkt" 7
    (by decide) (by decide) (by decide) (by decide)

end ArbMvp
